import Mathlib

/-!
Verification development for the export/import engine of the aiida_core
provenance-graph repository.

The repository's sources at hand contain the test suite of the engine
(`aiida/backends/tests/export_and_import.py`) but not the engine itself
(`aiida/orm/importexport.py`).  The engine is therefore modelled here from
the natural-language specification (spec.md §3-§4.6, §6-§8), and where the
specification leaves the behaviour open the behaviour asserted by the test
suite is followed; each such definition carries a doc comment starting with
`Modelled from the spec:`.

The model is a shallow embedding: stores and archives are explicit records
over lists, and export/import are pure functions on them.  Fallible
operations return `Except`.
-/

namespace AiidaEI

/-- The closed set of link kinds of the provenance graph (spec §3, Edge). -/
inductive LinkType where
  | INPUT
  | CREATE
  | RETURN
  | CALL
deriving DecidableEq

/-- Attribute values (spec §3, Node): typed scalar values.  Mappings are
represented as association lists `List (String × AttrValue)` at their use
sites, which covers the string- and integer-valued JSON mappings exercised
by the repository's tests. -/
inductive AttrValue where
  | str (s : String)
  | int (i : Int)
  | boolean (b : Bool)
deriving DecidableEq

/-- A provenance-graph node (spec §3): globally unique UUID, a type tag,
label, description, attribute mapping, optional license, optional owning
user (by email) and optional compute-endpoint reference (by UUID). -/
structure Node where
  uuid : Nat
  ntype : String
  label : String
  description : String
  attributes : List (String × AttrValue)
  license : Option String
  userEmail : Option String
  computerUuid : Option Nat
deriving DecidableEq

/-- A directed, labelled, typed edge between two nodes, referenced by the
UUIDs of its source (input) and target (output) nodes (spec §3, Edge). -/
structure Link where
  source : Nat
  target : Nat
  label : String
  kind : LinkType
deriving DecidableEq

/-- A compute endpoint ("computer"): immutable UUID, store-local name,
JSON-valued metadata and transport-parameter mappings (spec §3). -/
structure Computer where
  uuid : Nat
  name : String
  hostname : String
  metadata : List (String × AttrValue)
  transport_params : List (String × AttrValue)
deriving DecidableEq

/-- A user, identified by email address (spec §3). -/
structure User where
  email : String
deriving DecidableEq

/-- A group: own UUID, a name, and member nodes by UUID (spec §3). -/
structure Group where
  uuid : Nat
  name : String
  members : List Nat
deriving DecidableEq

/-- The persistent store (spec §1, §6): the canonical graph plus the
configured default user of the profile. -/
structure Store where
  nodes : List Node
  links : List Link
  computers : List Computer
  users : List User
  groups : List Group
  defaultUser : String
deriving DecidableEq

/-- The archive produced by export and consumed by import (spec §3):
node, edge, compute-endpoint, user and group record lists. -/
structure Archive where
  nodes : List Node
  links : List Link
  computers : List Computer
  users : List User
  groups : List Group
deriving DecidableEq

/-- Decidable equality for `Except` results, so that concrete runs of the
fallible operations can be checked by evaluation. -/
instance {ε α : Type} [DecidableEq ε] [DecidableEq α] :
    DecidableEq (Except ε α) := fun a b =>
  match a, b with
  | Except.ok x, Except.ok y =>
    if h : x = y then isTrue (congrArg Except.ok h)
    else isFalse (fun hc => h (Except.ok.inj hc))
  | Except.error x, Except.error y =>
    if h : x = y then isTrue (congrArg Except.error h)
    else isFalse (fun hc => h (Except.error.inj hc))
  | Except.ok _, Except.error _ => isFalse (fun hc => Except.noConfusion hc)
  | Except.error _, Except.ok _ => isFalse (fun hc => Except.noConfusion hc)

/-- The UUIDs of a list of nodes. -/
def nodeUuids (ns : List Node) : List Nat := ns.map Node.uuid

/-- A store with no content (the target of a fresh import), with the given
configured default user. -/
def emptyStore (d : String) : Store :=
  { nodes := [], links := [], computers := [], users := [], groups := [],
    defaultUser := d }

/-! ## Graph closure builder (spec §4.1) -/

/-- Modelled from the spec: one expansion step of the closure traversal of
`aiida.orm.importexport.export_tree`, absent from the sources.  From the
current node set, new nodes are pulled in backward along INPUT and CREATE
edges (inputs and creators are always replayed) and forward along CREATE and
RETURN edges (outputs of calculations); CALL edges are never traversed in
either direction (spec §4.1). -/
def stepNewNodes (links : List Link) (cur : List Nat) : List Nat :=
  (links.filterMap fun l =>
    if (l.kind = LinkType.INPUT ∨ l.kind = LinkType.CREATE)
        ∧ l.target ∈ cur ∧ ¬ l.source ∈ cur
    then some l.source else none)
  ++ (links.filterMap fun l =>
    if (l.kind = LinkType.CREATE ∨ l.kind = LinkType.RETURN)
        ∧ l.source ∈ cur ∧ ¬ l.target ∈ cur
    then some l.target else none)

/-- Modelled from the spec: the worklist iteration of the closure builder
(spec §4.1, §9), fuelled to guarantee termination. -/
def closureIter (links : List Link) : Nat → List Nat → List Nat
  | 0, cur => cur
  | fuel + 1, cur =>
    if stepNewNodes links cur = [] then cur
    else closureIter links fuel (cur ++ stepNewNodes links cur)

/-- Reachability from the initial seed set through the traversal rules of
the closure builder: backward along INPUT and CREATE edges, forward along
CREATE and RETURN edges.  CALL edges admit no constructor in either
direction (spec §4.1: CALL edges are never traversed for closure
expansion). -/
inductive ReachNC (links : List Link) (init : List Nat) : Nat → Prop where
  | seed (u : Nat) (hu : u ∈ init) : ReachNC links init u
  | back (l : Link) (hl : l ∈ links)
      (hk : l.kind = LinkType.INPUT ∨ l.kind = LinkType.CREATE)
      (ht : ReachNC links init l.target) : ReachNC links init l.source
  | fwd (l : Link) (hl : l ∈ links)
      (hk : l.kind = LinkType.CREATE ∨ l.kind = LinkType.RETURN)
      (hs : ReachNC links init l.source) : ReachNC links init l.target

/-- Modelled from the spec: the initial seed set of an export call; group
seeds expand to their member nodes before traversal (spec §4.1). -/
def initialSeeds (S : Store) (sn sg : List Nat) : List Nat :=
  sn ++ (S.groups.filter (fun g => decide (g.uuid ∈ sg))).flatMap Group.members

/-- Modelled from the spec: the node set `N` of the exported closure
(spec §4.1), computed by the fuelled worklist traversal.  The fuel
`2 * S.links.length + 1` dominates the number of nodes any edge of the
store can contribute. -/
def closureOf (S : Store) (sn sg : List Nat) : List Nat :=
  closureIter S.links (2 * S.links.length + 1) (initialSeeds S sn sg)

/-! ## License filter (spec §4.2) -/

/-- A license policy entry: a literal set of license strings or a predicate.
A predicate result of `none` models a predicate that raises during
evaluation (spec §4.2). -/
inductive LicenseSpec where
  | set (xs : List String)
  | pred (f : String → Option Bool)

/-- Evaluation of a license policy entry on a license string. -/
def specAccepts : LicenseSpec → String → Option Bool
  | LicenseSpec.set xs, l => some (decide (l ∈ xs))
  | LicenseSpec.pred f, l => f l

/-- An export-time license policy: optional allow-list and deny-list. -/
structure LicensePolicy where
  allowed : Option LicenseSpec
  forbidden : Option LicenseSpec

/-- The trivial policy: no license constraints. -/
def noPolicy : LicensePolicy := { allowed := none, forbidden := none }

/-- Modelled from the spec: whether a node violates the license policy of
`export_tree` (absent from the sources).  Under an allow-list, a node
lacking a license, or whose license is not accepted, violates; under a
deny-list, a matching license violates; a predicate that raises (here:
returns `none`) counts as rejection in both cases (fails closed, spec §4.2). -/
def nodeViolates (pol : LicensePolicy) (n : Node) : Bool :=
  (match pol.allowed with
   | none => false
   | some sp =>
     match n.license with
     | none => true
     | some l => decide (¬ specAccepts sp l = some true)) ||
  (match pol.forbidden with
   | none => false
   | some sp =>
     match n.license with
     | none => false
     | some l => decide (¬ specAccepts sp l = some false))

/-! ## Export (spec §4.1-§4.3, §6) -/

/-- The error taxonomy of export: a licensing violation naming the
offending node (spec §7a). -/
inductive ExportErr where
  | licensing (uuid : Nat)
deriving DecidableEq

/-- Modelled from the spec: the node records serialized by `export_tree`,
namely the store nodes whose UUID lies in the computed closure (spec §4.1,
§4.3). -/
def exportedNodes (S : Store) (sn sg : List Nat) : List Node :=
  S.nodes.filter (fun n => decide (n.uuid ∈ closureOf S sn sg))

/-- Modelled from the spec: the edge records serialized by `export_tree`.
An edge is recorded only when both endpoints are among the exported nodes
(spec §4.1); RETURN edges are not recorded at all — the test
`TestLinks.test_links_for_workflows` asserts that after an export/import
cycle only the INPUT and CREATE links are present even when both endpoints
of a RETURN link belong to the closure. -/
def exportedLinks (S : Store) (sn sg : List Nat) : List Link :=
  S.links.filter (fun l => decide
    (l.source ∈ nodeUuids (exportedNodes S sn sg)
      ∧ l.target ∈ nodeUuids (exportedNodes S sn sg)
      ∧ ¬ l.kind = LinkType.RETURN))

/-- Modelled from the spec: the compute-endpoint records serialized by
`export_tree`, namely the endpoints referenced by some exported node
(spec §4.3). -/
def exportedComputers (S : Store) (sn sg : List Nat) : List Computer :=
  S.computers.filter (fun c =>
    (exportedNodes S sn sg).any (fun n => decide (n.computerUuid = some c.uuid)))

/-- Modelled from the spec: the user records serialized by `export_tree`,
namely the users owning some exported node (spec §4.3). -/
def exportedUsers (S : Store) (sn sg : List Nat) : List User :=
  S.users.filter (fun u =>
    (exportedNodes S sn sg).any (fun n => decide (n.userEmail = some u.email)))

/-- Modelled from the spec: the group records serialized by `export_tree`
for the group seeds, with membership restricted to exported nodes
(spec §4.1: group membership metadata is retained, pointing only at nodes
already in the closure). -/
def exportedGroups (S : Store) (sn sg : List Nat) : List Group :=
  (S.groups.filter (fun g => decide (g.uuid ∈ sg))).map
    (fun g => { g with
      members := g.members.filter
        (fun m => decide (m ∈ nodeUuids (exportedNodes S sn sg))) })

/-- Modelled from the spec: `aiida.orm.importexport.export_tree`, absent
from the sources.  Computes the closure, vets it against the license
policy (aborting with a licensing error naming the offending node and
writing no archive, spec §4.2, §7a), and otherwise serializes the closure
nodes, the recorded edges, and the compute endpoints, users and group
records referenced by the closure (spec §4.3, §6). -/
def export_tree (S : Store) (sn sg : List Nat) (pol : LicensePolicy) :
    Except ExportErr Archive :=
  match (exportedNodes S sn sg).find? (fun n => nodeViolates pol n) with
  | some n => Except.error (ExportErr.licensing n.uuid)
  | none => Except.ok
      { nodes := exportedNodes S sn sg
        links := exportedLinks S sn sg
        computers := exportedComputers S sn sg
        users := exportedUsers S sn sg
        groups := exportedGroups S sn sg }

/-! ## Import (spec §4.5-§4.6, §6) -/

/-- The error taxonomy of import relevant to the model: a
referential-integrity violation naming the missing node UUID (spec §7c). -/
inductive ImportErr where
  | unknownNode (uuid : Nat)
deriving DecidableEq

/-- Modelled from the spec: the numeric-duplicate suffix
`COMP_DUPL_SUFFIX` of `aiida.orm.importexport`, appended to a colliding
compute-endpoint name (spec §4.5; test
`TestComputer.test_different_computer_same_name_import`). -/
def COMP_DUPL_SUFFIX (i : Nat) : String := "_" ++ toString i

/-- Modelled from the spec: the renaming loop of the identity resolver for
compute-endpoint name collisions — successive integers starting at `i` are
tried until a free name is found (spec §4.5), fuelled for termination. -/
def findFreeName (names : List String) (base : String) : Nat → Nat → String
  | 0, i => base ++ COMP_DUPL_SUFFIX i
  | fuel + 1, i =>
    if (base ++ COMP_DUPL_SUFFIX i) ∈ names then
      findFreeName names base fuel (i + 1)
    else base ++ COMP_DUPL_SUFFIX i

/-- Modelled from the spec: user resolution of the import merger — each
archive user is matched by email, and created from the archive record when
absent (spec §4.5). -/
def addUsers (cur : List User) (us : List User) : List User :=
  us.foldl
    (fun acc u => if ∃ v ∈ acc, v.email = u.email then acc else acc ++ [u])
    cur

/-- Modelled from the spec: compute-endpoint resolution of the import
merger — matched primarily by UUID (the existing endpoint is then
authoritative and untouched); on a name collision without a UUID match the
imported endpoint is created as a distinct entity under the first free
numeric-suffix name (spec §4.5). -/
def addComputers (cur : List Computer) (cs : List Computer) : List Computer :=
  cs.foldl
    (fun acc c =>
      if ∃ d ∈ acc, d.uuid = c.uuid then acc
      else if ∃ d ∈ acc, d.name = c.name then
        acc ++ [{ c with
          name := findFreeName (acc.map Computer.name) c.name (acc.length + 1) 0 }]
      else acc ++ [c])
    cur

/-- Modelled from the spec: the user attribution given to a node on
creation from an archive record — the archive's explicit user when one is
recorded, and otherwise the importing store's configured default user
(spec §4.5, §8). -/
def resolveNode (d : String) (n : Node) : Node :=
  { n with userEmail := some (n.userEmail.getD d) }

/-- Modelled from the spec: node resolution of the import merger — a node
whose UUID already exists is linked to, never overwritten; otherwise a new
node is created from the archive record with its user resolved (spec §4.5). -/
def addNodes (d : String) (cur : List Node) (ns : List Node) : List Node :=
  ns.foldl
    (fun acc n =>
      if ∃ m ∈ acc, m.uuid = n.uuid then acc else acc ++ [resolveNode d n])
    cur

/-- Modelled from the spec: edge creation of the import merger.  Both
endpoints must exist in the store after node resolution; an edge referring
to an unknown UUID aborts the import with a referential-integrity error
naming the missing UUID unless `ignore` is set, in which case the dangling
edge is silently dropped; already-present edges are not duplicated
(spec §4.6, §7c). -/
def addLinks (ignore : Bool) (known : List Nat) (cur : List Link) :
    List Link → Except ImportErr (List Link)
  | [] => Except.ok cur
  | l :: ls =>
    if l.source ∈ known ∧ l.target ∈ known then
      addLinks ignore known (if l ∈ cur then cur else cur ++ [l]) ls
    else if ignore then addLinks ignore known cur ls
    else Except.error (ImportErr.unknownNode
      (if l.source ∈ known then l.target else l.source))

/-- Modelled from the spec: group resolution of the import merger — a
group is matched or created by its own UUID identically to node resolution
(spec §4.6). -/
def addGroups (cur : List Group) (gs : List Group) : List Group :=
  gs.foldl
    (fun acc g => if ∃ h ∈ acc, h.uuid = g.uuid then acc else acc ++ [g])
    cur

/-- Modelled from the spec: `aiida.orm.importexport.import_data`, absent
from the sources.  Applies the identity resolver's plan in dependency
order — users and compute endpoints, then nodes, then edges, then group
records — and is all-or-nothing: any referential-integrity error yields
the error and no mutated store (spec §4.5-§4.6). -/
def import_data (A : Archive) (ignore : Bool) (S : Store) :
    Except ImportErr Store :=
  match addLinks ignore (nodeUuids (addNodes S.defaultUser S.nodes A.nodes))
      S.links A.links with
  | Except.error e => Except.error e
  | Except.ok links => Except.ok
      { nodes := addNodes S.defaultUser S.nodes A.nodes, links := links,
        computers := addComputers S.computers A.computers,
        users := addUsers S.users A.users,
        groups := addGroups S.groups A.groups,
        defaultUser := S.defaultUser }

/-! ## Concrete instances

Small concrete stores and archives, mirroring the graphs built by the
repository's test suite; they are used to evaluate the model on explicit
inputs. -/

/-- A bare node with the given UUID and type tag. -/
def wNode (u : Nat) (t : String) : Node :=
  { uuid := u, ntype := t, label := "", description := "", attributes := [],
    license := none, userEmail := none, computerUuid := none }

/-- The four-node workflow graph of `TestLinks.test_links_for_workflows`:
`i1 -INPUT-> w1`, `w2 -CALL-> w1`, `w1 -CREATE-> o1`, `w1 -RETURN-> o1`,
with node UUIDs `w1 = 1`, `w2 = 2`, `i1 = 3`, `o1 = 4`. -/
def storeW : Store :=
  { nodes := [wNode 1 "work", wNode 2 "work", wNode 3 "data", wNode 4 "data"]
    links := [⟨3, 1, "input-i1", LinkType.INPUT⟩, ⟨2, 1, "call", LinkType.CALL⟩,
              ⟨1, 4, "output", LinkType.CREATE⟩, ⟨1, 4, "return", LinkType.RETURN⟩]
    computers := [], users := [], groups := [], defaultUser := "op@x" }

/-- The archive produced by exporting the seed `o1 = 4` from `storeW`. -/
def archW : Archive :=
  { nodes := exportedNodes storeW [4] [], links := exportedLinks storeW [4] [],
    computers := [], users := [], groups := [] }

/-- The store obtained by importing `archW` into an empty store. -/
def storeWT : Store :=
  { nodes := [{ wNode 1 "work" with userEmail := some "op@x" },
              { wNode 3 "data" with userEmail := some "op@x" },
              { wNode 4 "data" with userEmail := some "op@x" }],
    links := [⟨3, 1, "input-i1", LinkType.INPUT⟩,
              ⟨1, 4, "output", LinkType.CREATE⟩],
    computers := [], users := [], groups := [], defaultUser := "op@x" }

/-- A structure-data node declaring the license "GPL", as in
`TestSimple.test_4`. -/
def nodeGPL : Node := { wNode 10 "structure" with license := some "GPL" }

/-- A store holding only `nodeGPL`. -/
def storeL : Store :=
  { nodes := [nodeGPL], links := [], computers := [], users := [],
    groups := [], defaultUser := "op@x" }

/-- The allow-list policy `allowed_licenses = ["CC0"]`. -/
def polCC0 : LicensePolicy :=
  { allowed := some (LicenseSpec.set ["CC0"]), forbidden := none }

/-- An allow-list policy whose predicate raises on every license. -/
def polCrash : LicensePolicy :=
  { allowed := some (LicenseSpec.pred (fun _ => none)), forbidden := none }

/-- A small archive carrying one entity of every kind: two nodes, a link,
a compute endpoint, a user and a group. -/
def arch2 : Archive :=
  { nodes := [{ wNode 7 "data" with label := "n7", userEmail := some "alice@x" },
              wNode 8 "calc"],
    links := [⟨7, 8, "l", LinkType.INPUT⟩],
    computers := [{ uuid := 5, name := "localhost", hostname := "localhost",
                    metadata := [], transport_params := [] }],
    users := [⟨"alice@x"⟩],
    groups := [⟨9, "g", [7, 8]⟩] }

/-- The store obtained by importing `arch2` into an empty store with
default user `op@x`. -/
def store2T : Store :=
  { nodes := [{ wNode 7 "data" with label := "n7", userEmail := some "alice@x" },
              { wNode 8 "calc" with userEmail := some "op@x" }],
    links := [⟨7, 8, "l", LinkType.INPUT⟩],
    computers := [{ uuid := 5, name := "localhost", hostname := "localhost",
                    metadata := [], transport_params := [] }],
    users := [⟨"alice@x"⟩],
    groups := [⟨9, "g", [7, 8]⟩],
    defaultUser := "op@x" }

/-- The pre-existing endpoint "localhost_1" (UUID 1) of
`TestComputer.test_different_computer_same_name_import`. -/
def comp4a : Computer := ⟨1, "localhost_1", "localhost", [], []⟩

/-- The first colliding archived endpoint: same name, UUID 2. -/
def comp4b : Computer := ⟨2, "localhost_1", "localhost", [], []⟩

/-- The second colliding archived endpoint: same name, UUID 3. -/
def comp4c : Computer := ⟨3, "localhost_1", "localhost", [], []⟩

/-- A store already containing the endpoint named "localhost_1". -/
def store4 : Store :=
  { nodes := [], links := [], computers := [comp4a], users := [],
    groups := [], defaultUser := "op@x" }

/-- An archive carrying the colliding endpoint of UUID 2. -/
def arch4b : Archive :=
  { nodes := [], links := [], computers := [comp4b], users := [], groups := [] }

/-- An archive carrying the colliding endpoint of UUID 3. -/
def arch4c : Archive :=
  { nodes := [], links := [], computers := [comp4c], users := [], groups := [] }

/-- The store after importing `arch4b` into `store4`: the colliding
endpoint was created under the name "localhost_1_0". -/
def store4b : Store :=
  { store4 with computers := [comp4a, { comp4b with name := "localhost_1_0" }] }

/-- The store after further importing `arch4c` into `store4b`: the third
endpoint was created under the name "localhost_1_1". -/
def store4c : Store :=
  { store4b with computers := [comp4a, { comp4b with name := "localhost_1_0" },
                               { comp4c with name := "localhost_1_1" }] }

/-- An endpoint of UUID 5 as it exists in a target store. -/
def comp5 : Computer := ⟨5, "localhost", "localhost", [], []⟩

/-- The archive's copy of the UUID-5 endpoint, with a different name,
hostname and metadata. -/
def comp5arch : Computer := ⟨5, "renamed", "otherhost", [("x", AttrValue.str "y")], []⟩

/-- The archive of `TestSimple.test_3`: one structure-data node plus an
edge whose input side refers to a UUID (99) absent from both the archive's
node list and the target store. -/
def arch7 : Archive :=
  { nodes := [{ wNode 1 "structure" with label := "Test structure data" }],
    links := [⟨99, 1, "parent", LinkType.INPUT⟩],
    computers := [], users := [], groups := [] }

/-- An archive in the spirit of `TestSimple.test_5`: one node owned by the
non-default user `newuser@new.n` (whose user record is archived) and one
node with no explicit user association. -/
def arch8 : Archive :=
  { nodes := [{ wNode 1 "structure" with label := "sd1", userEmail := some "newuser@new.n" },
              { wNode 2 "structure" with label := "sd3" }],
    links := [], computers := [], users := [⟨"newuser@new.n"⟩], groups := [] }

/-- The store obtained by importing `arch8` into an empty store whose
configured default user is `op@x`. -/
def store8T : Store :=
  { nodes := [{ wNode 1 "structure" with label := "sd1", userEmail := some "newuser@new.n" },
              { wNode 2 "structure" with label := "sd3", userEmail := some "op@x" }],
    links := [], computers := [], users := [⟨"newuser@new.n"⟩], groups := [],
    defaultUser := "op@x" }

/-- A data node with attributes, label and description. -/
def nodeA : Node :=
  { uuid := 3, ntype := "data", label := "lbl-a", description := "dsc-a",
    attributes := [("k", AttrValue.int 5)], license := none,
    userEmail := none, computerUuid := none }

/-- A calculation node that consumes `nodeA`'s UUID as CREATE source. -/
def nodeB : Node := { wNode 4 "calc" with label := "lbl-b" }

/-- A two-node store with one CREATE edge, used for a round-trip check. -/
def store1 : Store :=
  { nodes := [nodeA, nodeB], links := [⟨3, 4, "made", LinkType.CREATE⟩],
    computers := [], users := [], groups := [], defaultUser := "op@x" }

/-- The archive produced by exporting seed 4 from `store1`. -/
def arch1 : Archive :=
  { nodes := exportedNodes store1 [4] [], links := exportedLinks store1 [4] [],
    computers := exportedComputers store1 [4] [],
    users := exportedUsers store1 [4] [],
    groups := exportedGroups store1 [4] [] }

/-- The compute endpoint of
`TestComputer.test_correct_import_of_computer_json_params`, with
JSON-valued metadata and transport parameters. -/
def comp10 : Computer :=
  { uuid := 5, name := "localhost_1", hostname := "localhost",
    metadata := [("workdir", AttrValue.str "/tmp/aiida")],
    transport_params := [("key1", AttrValue.str "value1"),
                         ("key2", AttrValue.int 2)] }

/-- A calculation node attached to `comp10`. -/
def node10 : Node := { wNode 1 "calc" with computerUuid := some 5 }

/-- A store holding `node10` attached to `comp10`. -/
def store10 : Store :=
  { nodes := [node10], links := [], computers := [comp10], users := [],
    groups := [], defaultUser := "op@x" }

/-- The archive produced by exporting seed 1 from `store10`. -/
def arch10 : Archive :=
  { nodes := exportedNodes store10 [1] [],
    links := exportedLinks store10 [1] [],
    computers := exportedComputers store10 [1] [],
    users := exportedUsers store10 [1] [],
    groups := exportedGroups store10 [1] [] }

/-- A store already containing the UUID-5 endpoint. -/
def store5 : Store :=
  { nodes := [], links := [], computers := [comp5], users := [],
    groups := [], defaultUser := "op@x" }

/-- An archive carrying the conflicting copy of the UUID-5 endpoint. -/
def arch5 : Archive :=
  { nodes := [], links := [], computers := [comp5arch], users := [], groups := [] }

end AiidaEI

namespace AiidaEI

/-! ## Basic lemmas about the export side -/

theorem resolveNode_uuid (d : String) (n : Node) :
    (resolveNode d n).uuid = n.uuid := rfl

theorem mem_exportedNodes {S : Store} {sn sg : List Nat} {n : Node} :
    n ∈ exportedNodes S sn sg ↔ n ∈ S.nodes ∧ n.uuid ∈ closureOf S sn sg := by
  simp [exportedNodes, List.mem_filter]

theorem mem_exportedLinks {S : Store} {sn sg : List Nat} {l : Link} :
    l ∈ exportedLinks S sn sg ↔
      l ∈ S.links ∧ l.source ∈ nodeUuids (exportedNodes S sn sg)
        ∧ l.target ∈ nodeUuids (exportedNodes S sn sg)
        ∧ ¬ l.kind = LinkType.RETURN := by
  simp [exportedLinks, List.mem_filter, and_assoc]

theorem export_tree_ok {S : Store} {sn sg : List Nat} {pol : LicensePolicy}
    {A : Archive} (h : export_tree S sn sg pol = Except.ok A) :
    A.nodes = exportedNodes S sn sg ∧ A.links = exportedLinks S sn sg ∧
    A.computers = exportedComputers S sn sg ∧
    A.users = exportedUsers S sn sg ∧ A.groups = exportedGroups S sn sg := by
  unfold export_tree at h
  cases hf : (exportedNodes S sn sg).find? (fun n => nodeViolates pol n) with
  | some n => rw [hf] at h; exact absurd h (by simp)
  | none =>
    rw [hf] at h
    have hA := Except.ok.inj h
    subst hA
    exact ⟨rfl, rfl, rfl, rfl, rfl⟩

/-! ## Soundness of the closure traversal -/

theorem stepNewNodes_sound {links : List Link} {init cur : List Nat}
    (hcur : ∀ v ∈ cur, ReachNC links init v) :
    ∀ u ∈ stepNewNodes links cur, ReachNC links init u := by
  intro u hu
  rcases List.mem_append.mp hu with h | h
  · obtain ⟨l, hl, hcond⟩ := List.mem_filterMap.mp h
    by_cases hc : (l.kind = LinkType.INPUT ∨ l.kind = LinkType.CREATE)
        ∧ l.target ∈ cur ∧ ¬ l.source ∈ cur
    · rw [if_pos hc] at hcond
      have hsu := Option.some.inj hcond
      subst hsu
      exact ReachNC.back l hl hc.1 (hcur _ hc.2.1)
    · rw [if_neg hc] at hcond; cases hcond
  · obtain ⟨l, hl, hcond⟩ := List.mem_filterMap.mp h
    by_cases hc : (l.kind = LinkType.CREATE ∨ l.kind = LinkType.RETURN)
        ∧ l.source ∈ cur ∧ ¬ l.target ∈ cur
    · rw [if_pos hc] at hcond
      have hsu := Option.some.inj hcond
      subst hsu
      exact ReachNC.fwd l hl hc.1 (hcur _ hc.2.1)
    · rw [if_neg hc] at hcond; cases hcond

theorem closureIter_sound {links : List Link} {init : List Nat} :
    ∀ (fuel : Nat) (cur : List Nat), (∀ v ∈ cur, ReachNC links init v) →
      ∀ u ∈ closureIter links fuel cur, ReachNC links init u := by
  intro fuel
  induction fuel with
  | zero => intro cur hcur u hu; exact hcur u hu
  | succ fuel ih =>
    intro cur hcur u hu
    rw [closureIter] at hu
    by_cases hf : stepNewNodes links cur = []
    · rw [if_pos hf] at hu; exact hcur u hu
    · rw [if_neg hf] at hu
      refine ih _ ?_ u hu
      intro v hv
      rcases List.mem_append.mp hv with h | h
      · exact hcur v h
      · exact stepNewNodes_sound hcur v h

theorem closureOf_sound (S : Store) (sn sg : List Nat) :
    ∀ u ∈ closureOf S sn sg, ReachNC S.links (initialSeeds S sn sg) u :=
  closureIter_sound _ _ (fun v hv => ReachNC.seed v hv)

/-! ## Unfolding lemmas for the import pipeline -/

theorem import_data_ok {A : Archive} {ig : Bool} {S T : Store}
    (h : import_data A ig S = Except.ok T) :
    T.nodes = addNodes S.defaultUser S.nodes A.nodes ∧
    T.computers = addComputers S.computers A.computers ∧
    T.users = addUsers S.users A.users ∧
    T.groups = addGroups S.groups A.groups ∧
    T.defaultUser = S.defaultUser ∧
    addLinks ig (nodeUuids (addNodes S.defaultUser S.nodes A.nodes))
      S.links A.links = Except.ok T.links := by
  unfold import_data at h
  cases hl : addLinks ig (nodeUuids (addNodes S.defaultUser S.nodes A.nodes))
      S.links A.links with
  | error e => rw [hl] at h; exact absurd h (by simp)
  | ok links =>
    rw [hl] at h
    have hT := Except.ok.inj h
    subst hT
    exact ⟨rfl, rfl, rfl, rfl, rfl, rfl⟩

theorem import_data_error {A : Archive} {ig : Bool} {S : Store}
    {e : ImportErr}
    (h : addLinks ig (nodeUuids (addNodes S.defaultUser S.nodes A.nodes))
      S.links A.links = Except.error e) :
    import_data A ig S = Except.error e := by
  unfold import_data
  rw [h]

/-! ## Fold lemmas about user resolution -/

theorem addUsers_nil (cur : List User) : addUsers cur [] = cur := rfl

theorem addUsers_cons (cur : List User) (u : User) (us : List User) :
    addUsers cur (u :: us) =
      addUsers (if ∃ v ∈ cur, v.email = u.email then cur else cur ++ [u]) us :=
  rfl

theorem addUsers_sub (us : List User) :
    ∀ (cur : List User), ∀ x ∈ cur, x ∈ addUsers cur us := by
  induction us with
  | nil => intro cur x hx; exact hx
  | cons u us ih =>
    intro cur x hx
    rw [addUsers_cons]
    by_cases h : ∃ v ∈ cur, v.email = u.email
    · rw [if_pos h]; exact ih cur x hx
    · rw [if_neg h]; exact ih _ x (List.mem_append_left _ hx)

theorem addUsers_mem (us : List User) :
    ∀ (cur : List User), ∀ u ∈ us, ∃ v ∈ addUsers cur us, v.email = u.email := by
  induction us with
  | nil => intro cur u hu; cases hu
  | cons u0 us ih =>
    intro cur u hu
    rw [addUsers_cons]
    rcases List.mem_cons.mp hu with h1 | h1
    · subst h1
      by_cases h : ∃ v ∈ cur, v.email = u.email
      · rw [if_pos h]
        obtain ⟨v, hv, he⟩ := h
        exact ⟨v, addUsers_sub us cur v hv, he⟩
      · rw [if_neg h]
        exact ⟨u, addUsers_sub us _ u
          (List.mem_append_right _ (List.mem_singleton.mpr rfl)), rfl⟩
    · by_cases h : ∃ v ∈ cur, v.email = u0.email
      · rw [if_pos h]; exact ih cur u h1
      · rw [if_neg h]; exact ih _ u h1

theorem addUsers_id (us : List User) :
    ∀ (cur : List User), (∀ u ∈ us, ∃ v ∈ cur, v.email = u.email) →
      addUsers cur us = cur := by
  induction us with
  | nil => intro cur _; rfl
  | cons u us ih =>
    intro cur hall
    rw [addUsers_cons, if_pos (hall u (List.mem_cons_self u us))]
    exact ih cur (fun v hv => hall v (List.mem_cons_of_mem _ hv))

/-! ## Fold lemmas about compute-endpoint resolution -/

theorem addComputers_cons (cur : List Computer) (c : Computer)
    (cs : List Computer) :
    addComputers cur (c :: cs) =
      addComputers
        (if ∃ d ∈ cur, d.uuid = c.uuid then cur
         else if ∃ d ∈ cur, d.name = c.name then
           cur ++ [{ c with
             name := findFreeName (cur.map Computer.name) c.name
               (cur.length + 1) 0 }]
         else cur ++ [c]) cs :=
  rfl

theorem addComputers_sub (cs : List Computer) :
    ∀ (cur : List Computer), ∀ x ∈ cur, x ∈ addComputers cur cs := by
  induction cs with
  | nil => intro cur x hx; exact hx
  | cons c cs ih =>
    intro cur x hx
    rw [addComputers_cons]
    by_cases h1 : ∃ d ∈ cur, d.uuid = c.uuid
    · rw [if_pos h1]; exact ih cur x hx
    · rw [if_neg h1]
      by_cases h2 : ∃ d ∈ cur, d.name = c.name
      · rw [if_pos h2]; exact ih _ x (List.mem_append_left _ hx)
      · rw [if_neg h2]; exact ih _ x (List.mem_append_left _ hx)

theorem addComputers_mem (cs : List Computer) :
    ∀ (cur : List Computer), ∀ c ∈ cs,
      ∃ d ∈ addComputers cur cs, d.uuid = c.uuid := by
  induction cs with
  | nil => intro cur c hc; cases hc
  | cons c0 cs ih =>
    intro cur c hc
    rw [addComputers_cons]
    rcases List.mem_cons.mp hc with h1 | h1
    · subst h1
      by_cases h : ∃ d ∈ cur, d.uuid = c.uuid
      · rw [if_pos h]
        obtain ⟨d, hd, he⟩ := h
        exact ⟨d, addComputers_sub cs cur d hd, he⟩
      · rw [if_neg h]
        by_cases h2 : ∃ d ∈ cur, d.name = c.name
        · rw [if_pos h2]
          exact ⟨_, addComputers_sub cs _ _
            (List.mem_append_right _ (List.mem_singleton.mpr rfl)), rfl⟩
        · rw [if_neg h2]
          exact ⟨c, addComputers_sub cs _ c
            (List.mem_append_right _ (List.mem_singleton.mpr rfl)), rfl⟩
    · by_cases h : ∃ d ∈ cur, d.uuid = c0.uuid
      · rw [if_pos h]; exact ih cur c h1
      · rw [if_neg h]
        by_cases h2 : ∃ d ∈ cur, d.name = c0.name
        · rw [if_pos h2]; exact ih _ c h1
        · rw [if_neg h2]; exact ih _ c h1

theorem addComputers_id (cs : List Computer) :
    ∀ (cur : List Computer), (∀ c ∈ cs, ∃ d ∈ cur, d.uuid = c.uuid) →
      addComputers cur cs = cur := by
  induction cs with
  | nil => intro cur _; rfl
  | cons c cs ih =>
    intro cur hall
    rw [addComputers_cons, if_pos (hall c (List.mem_cons_self c cs))]
    exact ih cur (fun d hd => hall d (List.mem_cons_of_mem _ hd))

theorem addComputers_frame (cs : List Computer) :
    ∀ (cur : List Computer), ∃ ext, addComputers cur cs = cur ++ ext ∧
      ∀ d ∈ ext, ∀ e ∈ cur, d.uuid ≠ e.uuid := by
  induction cs with
  | nil => intro cur; exact ⟨[], by simp [addUsers_nil]; rfl, by simp⟩
  | cons c cs ih =>
    intro cur
    rw [addComputers_cons]
    by_cases h1 : ∃ d ∈ cur, d.uuid = c.uuid
    · rw [if_pos h1]; exact ih cur
    · rw [if_neg h1]
      have hstep : ∀ (x : Computer), x.uuid = c.uuid →
          ∃ ext, addComputers (cur ++ [x]) cs = cur ++ ext ∧
            ∀ d ∈ ext, ∀ e ∈ cur, d.uuid ≠ e.uuid := by
        intro x hx
        obtain ⟨ext', hext', hfr'⟩ := ih (cur ++ [x])
        refine ⟨x :: ext', by rw [hext']; simp, ?_⟩
        intro d hd e he
        rcases List.mem_cons.mp hd with hdx | hdx
        · subst hdx
          intro hcontra
          exact h1 ⟨e, he, by rw [← hcontra, hx]⟩
        · exact hfr' d hdx e (List.mem_append_left _ he)
      by_cases h2 : ∃ d ∈ cur, d.name = c.name
      · rw [if_pos h2]; exact hstep _ rfl
      · rw [if_neg h2]; exact hstep c rfl

theorem addComputers_fresh_mem (cs : List Computer) :
    ∀ (cur : List Computer), (cs.map Computer.uuid).Nodup →
      ∀ c ∈ cs, (¬ ∃ d ∈ cur, d.uuid = c.uuid) →
        ∃ nm, { c with name := nm } ∈ addComputers cur cs := by
  induction cs with
  | nil => intro cur _ c hc; cases hc
  | cons c0 cs ih =>
    intro cur hnd c hc hfresh
    have hnd' : (cs.map Computer.uuid).Nodup := (List.nodup_cons.mp hnd).2
    rw [addComputers_cons]
    rcases List.mem_cons.mp hc with h1 | h1
    · subst h1
      rw [if_neg hfresh]
      by_cases h2 : ∃ d ∈ cur, d.name = c.name
      · rw [if_pos h2]
        exact ⟨_, addComputers_sub cs _ _
          (List.mem_append_right _ (List.mem_singleton.mpr rfl))⟩
      · rw [if_neg h2]
        exact ⟨c.name, addComputers_sub cs _ _
          (List.mem_append_right _ (List.mem_singleton.mpr rfl))⟩
    · have hne : c.uuid ≠ c0.uuid := by
        intro hcontra
        exact (List.nodup_cons.mp hnd).1 (by
          rw [← hcontra]
          exact List.mem_map_of_mem Computer.uuid h1)
      by_cases h : ∃ d ∈ cur, d.uuid = c0.uuid
      · rw [if_pos h]; exact ih cur hnd' c h1 hfresh
      · rw [if_neg h]
        have hfresh' : ∀ (x : Computer), x.uuid = c0.uuid →
            ¬ ∃ d ∈ cur ++ [x], d.uuid = c.uuid := by
          intro x hx hcon
          obtain ⟨d, hd, hde⟩ := hcon
          rcases List.mem_append.mp hd with hdc | hdc
          · exact hfresh ⟨d, hdc, hde⟩
          · rw [List.mem_singleton.mp hdc] at hde
            rw [hx] at hde
            exact hne hde.symm
        by_cases h2 : ∃ d ∈ cur, d.name = c0.name
        · rw [if_pos h2]; exact ih _ hnd' c h1 (hfresh' _ rfl)
        · rw [if_neg h2]; exact ih _ hnd' c h1 (hfresh' c0 rfl)

/-! ## Fold lemmas about node resolution -/

theorem addNodes_cons (d : String) (cur : List Node) (n : Node)
    (ns : List Node) :
    addNodes d cur (n :: ns) =
      addNodes d
        (if ∃ m ∈ cur, m.uuid = n.uuid then cur else cur ++ [resolveNode d n])
        ns :=
  rfl

theorem addNodes_sub (d : String) (ns : List Node) :
    ∀ (cur : List Node), ∀ x ∈ cur, x ∈ addNodes d cur ns := by
  induction ns with
  | nil => intro cur x hx; exact hx
  | cons n ns ih =>
    intro cur x hx
    rw [addNodes_cons]
    by_cases h : ∃ m ∈ cur, m.uuid = n.uuid
    · rw [if_pos h]; exact ih cur x hx
    · rw [if_neg h]; exact ih _ x (List.mem_append_left _ hx)

theorem addNodes_mem (d : String) (ns : List Node) :
    ∀ (cur : List Node), ∀ n ∈ ns,
      ∃ m ∈ addNodes d cur ns, m.uuid = n.uuid := by
  induction ns with
  | nil => intro cur n hn; cases hn
  | cons n0 ns ih =>
    intro cur n hn
    rw [addNodes_cons]
    rcases List.mem_cons.mp hn with h1 | h1
    · subst h1
      by_cases h : ∃ m ∈ cur, m.uuid = n.uuid
      · rw [if_pos h]
        obtain ⟨m, hm, he⟩ := h
        exact ⟨m, addNodes_sub d ns cur m hm, he⟩
      · rw [if_neg h]
        exact ⟨resolveNode d n, addNodes_sub d ns _ _
          (List.mem_append_right _ (List.mem_singleton.mpr rfl)), rfl⟩
    · by_cases h : ∃ m ∈ cur, m.uuid = n0.uuid
      · rw [if_pos h]; exact ih cur n h1
      · rw [if_neg h]; exact ih _ n h1

theorem addNodes_id (d : String) (ns : List Node) :
    ∀ (cur : List Node), (∀ n ∈ ns, ∃ m ∈ cur, m.uuid = n.uuid) →
      addNodes d cur ns = cur := by
  induction ns with
  | nil => intro cur _; rfl
  | cons n ns ih =>
    intro cur hall
    rw [addNodes_cons, if_pos (hall n (List.mem_cons_self n ns))]
    exact ih cur (fun m hm => hall m (List.mem_cons_of_mem _ hm))

theorem addNodes_shape (d : String) (ns : List Node) :
    ∀ (cur : List Node), ∀ m ∈ addNodes d cur ns,
      m ∈ cur ∨ ∃ n ∈ ns, m = resolveNode d n := by
  induction ns with
  | nil => intro cur m hm; exact Or.inl hm
  | cons n0 ns ih =>
    intro cur m hm
    rw [addNodes_cons] at hm
    by_cases h : ∃ m' ∈ cur, m'.uuid = n0.uuid
    · rw [if_pos h] at hm
      rcases ih cur m hm with hc | ⟨n, hn, he⟩
      · exact Or.inl hc
      · exact Or.inr ⟨n, List.mem_cons_of_mem _ hn, he⟩
    · rw [if_neg h] at hm
      rcases ih _ m hm with hc | ⟨n, hn, he⟩
      · rcases List.mem_append.mp hc with hc' | hc'
        · exact Or.inl hc'
        · exact Or.inr ⟨n0, List.mem_cons_self _ _,
            List.mem_singleton.mp hc'⟩
      · exact Or.inr ⟨n, List.mem_cons_of_mem _ hn, he⟩

theorem addNodes_fresh (d : String) (ns : List Node) :
    ∀ (cur : List Node), (nodeUuids ns).Nodup →
      (∀ n ∈ ns, ¬ ∃ m ∈ cur, m.uuid = n.uuid) →
      addNodes d cur ns = cur ++ ns.map (resolveNode d) := by
  induction ns with
  | nil => intro cur _ _; simp [addNodes]
  | cons n0 ns ih =>
    intro cur hnd hfresh
    rw [addNodes_cons, if_neg (hfresh n0 (List.mem_cons_self n0 ns))]
    rw [ih (cur ++ [resolveNode d n0]) (List.nodup_cons.mp hnd).2 ?fresh]
    · simp
    case fresh =>
      intro n hn hcon
      obtain ⟨m, hm, he⟩ := hcon
      rcases List.mem_append.mp hm with hmc | hmc
      · exact hfresh n (List.mem_cons_of_mem _ hn) ⟨m, hmc, he⟩
      · rw [List.mem_singleton.mp hmc] at he
        rw [resolveNode_uuid] at he
        exact (List.nodup_cons.mp hnd).1 (by
          rw [he]
          exact List.mem_map_of_mem Node.uuid hn)

theorem addNodes_mem_fresh (d : String) (ns : List Node) :
    ∀ (cur : List Node), (nodeUuids ns).Nodup →
      ∀ n ∈ ns, (¬ ∃ m ∈ cur, m.uuid = n.uuid) →
        resolveNode d n ∈ addNodes d cur ns := by
  induction ns with
  | nil => intro cur _ n hn; cases hn
  | cons n0 ns ih =>
    intro cur hnd n hn hfresh
    have hnd' : (nodeUuids ns).Nodup := (List.nodup_cons.mp hnd).2
    rw [addNodes_cons]
    rcases List.mem_cons.mp hn with h1 | h1
    · subst h1
      rw [if_neg hfresh]
      exact addNodes_sub d ns _ _
        (List.mem_append_right _ (List.mem_singleton.mpr rfl))
    · have hne : n.uuid ≠ n0.uuid := by
        intro hcontra
        exact (List.nodup_cons.mp hnd).1 (by
          rw [← hcontra]
          exact List.mem_map_of_mem Node.uuid h1)
      by_cases h : ∃ m ∈ cur, m.uuid = n0.uuid
      · rw [if_pos h]; exact ih cur hnd' n h1 hfresh
      · rw [if_neg h]
        refine ih _ hnd' n h1 ?_
        intro hcon
        obtain ⟨m, hm, he⟩ := hcon
        rcases List.mem_append.mp hm with hmc | hmc
        · exact hfresh ⟨m, hmc, he⟩
        · rw [List.mem_singleton.mp hmc, resolveNode_uuid] at he
          exact hne he.symm

/-! ## Lemmas about edge creation -/

theorem addLinks_shape {ig : Bool} {known : List Nat} (ls : List Link) :
    ∀ (cur out : List Link), addLinks ig known cur ls = Except.ok out →
      ∀ l ∈ out, l ∈ cur ∨ (l ∈ ls ∧ l.source ∈ known ∧ l.target ∈ known) := by
  induction ls with
  | nil =>
    intro cur out h l hl
    have hco : cur = out := Except.ok.inj h
    subst hco
    exact Or.inl hl
  | cons l0 ls ih =>
    intro cur out h l hl
    rw [addLinks] at h
    by_cases h1 : l0.source ∈ known ∧ l0.target ∈ known
    · rw [if_pos h1] at h
      rcases ih _ out h l hl with hc | hc
      · by_cases h2 : l0 ∈ cur
        · rw [if_pos h2] at hc; exact Or.inl hc
        · rw [if_neg h2] at hc
          rcases List.mem_append.mp hc with hc' | hc'
          · exact Or.inl hc'
          · rw [List.mem_singleton.mp hc']
            exact Or.inr ⟨List.mem_cons_self _ _, h1⟩
      · exact Or.inr ⟨List.mem_cons_of_mem _ hc.1, hc.2⟩
    · rw [if_neg h1] at h
      cases ig with
      | true =>
        rw [if_pos rfl] at h
        rcases ih cur out h l hl with hc | hc
        · exact Or.inl hc
        · exact Or.inr ⟨List.mem_cons_of_mem _ hc.1, hc.2⟩
      | false =>
        rw [if_neg (by simp)] at h
        exact absurd h (by simp)

theorem addLinks_true_ok {known : List Nat} (ls : List Link) :
    ∀ (cur : List Link), ∃ out, addLinks true known cur ls = Except.ok out := by
  induction ls with
  | nil => intro cur; exact ⟨cur, rfl⟩
  | cons l0 ls ih =>
    intro cur
    rw [addLinks]
    by_cases h1 : l0.source ∈ known ∧ l0.target ∈ known
    · rw [if_pos h1]; exact ih _
    · rw [if_neg h1, if_pos rfl]; exact ih cur

theorem addLinks_err {known : List Nat} (ls : List Link) :
    ∀ (cur : List Link),
      (∃ l ∈ ls, ¬ (l.source ∈ known ∧ l.target ∈ known)) →
      ∃ u, addLinks false known cur ls =
        Except.error (ImportErr.unknownNode u) := by
  induction ls with
  | nil => intro cur hbad; obtain ⟨l, hl, _⟩ := hbad; cases hl
  | cons l0 ls ih =>
    intro cur hbad
    rw [addLinks]
    by_cases h1 : l0.source ∈ known ∧ l0.target ∈ known
    · rw [if_pos h1]
      refine ih _ ?_
      obtain ⟨l, hl, hnl⟩ := hbad
      rcases List.mem_cons.mp hl with he | he
      · subst he; exact absurd h1 hnl
      · exact ⟨l, he, hnl⟩
    · rw [if_neg h1, if_neg (by simp)]
      exact ⟨_, rfl⟩

theorem addLinks_fresh {ig : Bool} {known : List Nat} (ls : List Link) :
    ∀ (cur : List Link), ls.Nodup →
      (∀ l ∈ ls, l.source ∈ known ∧ l.target ∈ known) →
      (∀ l ∈ ls, l ∉ cur) →
      addLinks ig known cur ls = Except.ok (cur ++ ls) := by
  induction ls with
  | nil => intro cur _ _ _; simp [addLinks]
  | cons l0 ls ih =>
    intro cur hnd hgood hdis
    rw [addLinks, if_pos (hgood l0 (List.mem_cons_self l0 ls)),
      if_neg (hdis l0 (List.mem_cons_self l0 ls))]
    rw [ih (cur ++ [l0]) (List.nodup_cons.mp hnd).2
      (fun l hl => hgood l (List.mem_cons_of_mem _ hl)) ?dis]
    · simp
    case dis =>
      intro l hl hcon
      rcases List.mem_append.mp hcon with hc | hc
      · exact hdis l (List.mem_cons_of_mem _ hl) hc
      · rw [List.mem_singleton.mp hc] at hl
        exact (List.nodup_cons.mp hnd).1 hl

/-! ## The numeric-duplicate renaming loop -/

theorem findFreeName_spec (names : List String) (base : String) :
    ∀ (fuel i : Nat),
      (∃ j, j < fuel ∧ ¬ (base ++ COMP_DUPL_SUFFIX (i + j)) ∈ names) →
      ∃ k, findFreeName names base fuel i = base ++ COMP_DUPL_SUFFIX (i + k) ∧
        ¬ (base ++ COMP_DUPL_SUFFIX (i + k)) ∈ names ∧
        ∀ j, j < k → (base ++ COMP_DUPL_SUFFIX (i + j)) ∈ names := by
  intro fuel
  induction fuel with
  | zero =>
    intro i h
    obtain ⟨j, hj, _⟩ := h
    exact absurd hj (Nat.not_lt_zero j)
  | succ fuel ih =>
    intro i h
    rw [findFreeName]
    by_cases hc : (base ++ COMP_DUPL_SUFFIX i) ∈ names
    · rw [if_pos hc]
      have h' : ∃ j, j < fuel ∧
          ¬ (base ++ COMP_DUPL_SUFFIX (i + 1 + j)) ∈ names := by
        obtain ⟨j, hj, hfree⟩ := h
        cases j with
        | zero => exact absurd (by simpa using hc) hfree
        | succ j' =>
          refine ⟨j', Nat.lt_of_succ_lt_succ hj, ?_⟩
          have harith : i + 1 + j' = i + (j' + 1) := by omega
          rw [harith]
          exact hfree
      obtain ⟨k, hk1, hk2, hk3⟩ := ih (i + 1) h'
      have harith : i + 1 + k = i + (k + 1) := by omega
      refine ⟨k + 1, by rw [hk1, harith], by rw [← harith]; exact hk2, ?_⟩
      intro j hj
      cases j with
      | zero => simpa using hc
      | succ j' =>
        have harith' : i + (j' + 1) = i + 1 + j' := by omega
        rw [harith']
        exact hk3 j' (Nat.lt_of_succ_lt_succ hj)
    · rw [if_neg hc]
      exact ⟨0, by simp, by simpa using hc, by simp⟩

/-! ## Fold lemmas about group resolution -/

theorem addGroups_cons (cur : List Group) (g : Group) (gs : List Group) :
    addGroups cur (g :: gs) =
      addGroups (if ∃ h ∈ cur, h.uuid = g.uuid then cur else cur ++ [g]) gs :=
  rfl

theorem addGroups_sub (gs : List Group) :
    ∀ (cur : List Group), ∀ x ∈ cur, x ∈ addGroups cur gs := by
  induction gs with
  | nil => intro cur x hx; exact hx
  | cons g gs ih =>
    intro cur x hx
    rw [addGroups_cons]
    by_cases h : ∃ h ∈ cur, h.uuid = g.uuid
    · rw [if_pos h]; exact ih cur x hx
    · rw [if_neg h]; exact ih _ x (List.mem_append_left _ hx)

theorem addGroups_mem (gs : List Group) :
    ∀ (cur : List Group), ∀ g ∈ gs, ∃ h ∈ addGroups cur gs, h.uuid = g.uuid := by
  induction gs with
  | nil => intro cur g hg; cases hg
  | cons g0 gs ih =>
    intro cur g hg
    rw [addGroups_cons]
    rcases List.mem_cons.mp hg with h1 | h1
    · subst h1
      by_cases h : ∃ h ∈ cur, h.uuid = g.uuid
      · rw [if_pos h]
        obtain ⟨v, hv, he⟩ := h
        exact ⟨v, addGroups_sub gs cur v hv, he⟩
      · rw [if_neg h]
        exact ⟨g, addGroups_sub gs _ g
          (List.mem_append_right _ (List.mem_singleton.mpr rfl)), rfl⟩
    · by_cases h : ∃ h ∈ cur, h.uuid = g0.uuid
      · rw [if_pos h]; exact ih cur g h1
      · rw [if_neg h]; exact ih _ g h1

theorem addGroups_id (gs : List Group) :
    ∀ (cur : List Group), (∀ g ∈ gs, ∃ h ∈ cur, h.uuid = g.uuid) →
      addGroups cur gs = cur := by
  induction gs with
  | nil => intro cur _; rfl
  | cons g gs ih =>
    intro cur hall
    rw [addGroups_cons, if_pos (hall g (List.mem_cons_self g gs))]
    exact ih cur (fun v hv => hall v (List.mem_cons_of_mem _ hv))

/-! ## Shared helpers: well-formed archives and imports into an empty store -/

theorem nodeUuids_resolve (d : String) (ns : List Node) :
    nodeUuids (ns.map (resolveNode d)) = nodeUuids ns := by
  unfold nodeUuids
  rw [List.map_map]
  rfl

theorem export_archive_wf {S : Store} {sn sg : List Nat}
    {pol : LicensePolicy} {A : Archive}
    (hnd : (nodeUuids S.nodes).Nodup) (hld : S.links.Nodup)
    (hexp : export_tree S sn sg pol = Except.ok A) :
    (nodeUuids A.nodes).Nodup ∧ A.links.Nodup ∧
    ∀ l ∈ A.links, l.source ∈ nodeUuids A.nodes ∧
      l.target ∈ nodeUuids A.nodes := by
  obtain ⟨hn, hl, -, -, -⟩ := export_tree_ok hexp
  refine ⟨?_, ?_, ?_⟩
  · rw [hn]
    exact hnd.sublist (List.Sublist.map _ (List.filter_sublist _))
  · rw [hl]
    exact hld.sublist (List.filter_sublist _)
  · intro l hmem
    rw [hl] at hmem
    have h := mem_exportedLinks.mp hmem
    rw [hn]
    exact ⟨h.2.1, h.2.2.1⟩

theorem import_into_empty (A : Archive) (d : String)
    (hAnd : (nodeUuids A.nodes).Nodup)
    (hAld : A.links.Nodup)
    (hends : ∀ l ∈ A.links, l.source ∈ nodeUuids A.nodes ∧
      l.target ∈ nodeUuids A.nodes) :
    import_data A false (emptyStore d) = Except.ok
      { nodes := A.nodes.map (resolveNode d), links := A.links,
        computers := addComputers [] A.computers,
        users := addUsers [] A.users,
        groups := addGroups [] A.groups,
        defaultUser := d } := by
  have hnodes : addNodes d [] A.nodes = A.nodes.map (resolveNode d) := by
    have h := addNodes_fresh d A.nodes [] hAnd (fun n _ hcon => by
      obtain ⟨m, hm, -⟩ := hcon
      exact absurd hm (List.not_mem_nil m))
    simpa using h
  have hlinks : addLinks false (nodeUuids (addNodes d [] A.nodes)) [] A.links =
      Except.ok A.links := by
    have hends' : ∀ l ∈ A.links,
        l.source ∈ nodeUuids (addNodes d [] A.nodes) ∧
        l.target ∈ nodeUuids (addNodes d [] A.nodes) := by
      intro l hl
      rw [hnodes, nodeUuids_resolve]
      exact hends l hl
    have h := @addLinks_fresh false (nodeUuids (addNodes d [] A.nodes))
      A.links [] hAld hends'
      (fun l _ hcon => absurd hcon (List.not_mem_nil l))
    simpa using h
  simp only [import_data, emptyStore]
  rw [hlinks, hnodes]

theorem addNodes_uuids {d : String} {cur ns : List Node} {u : Nat}
    (h : u ∈ nodeUuids (addNodes d cur ns)) :
    u ∈ nodeUuids cur ∨ u ∈ nodeUuids ns := by
  obtain ⟨m, hm, he⟩ := List.mem_map.mp h
  rcases addNodes_shape d ns cur m hm with hc | ⟨n, hn, heq⟩
  · exact Or.inl (by rw [← he]; exact List.mem_map_of_mem Node.uuid hc)
  · refine Or.inr ?_
    rw [← he, heq, resolveNode_uuid]
    exact List.mem_map_of_mem Node.uuid hn

theorem import_data_true (A : Archive) (S : Store) :
    ∃ T, import_data A true S = Except.ok T ∧
      T.nodes = addNodes S.defaultUser S.nodes A.nodes ∧
      ∀ l ∈ T.links, l ∈ S.links ∨ (l ∈ A.links ∧
        l.source ∈ nodeUuids T.nodes ∧ l.target ∈ nodeUuids T.nodes) := by
  obtain ⟨out, hout⟩ :=
    @addLinks_true_ok (nodeUuids (addNodes S.defaultUser S.nodes A.nodes))
      A.links S.links
  refine ⟨{ nodes := addNodes S.defaultUser S.nodes A.nodes, links := out,
            computers := addComputers S.computers A.computers,
            users := addUsers S.users A.users,
            groups := addGroups S.groups A.groups,
            defaultUser := S.defaultUser }, ?_, rfl, ?_⟩
  · unfold import_data
    rw [hout]
  · intro l hl
    exact addLinks_shape A.links S.links out hout l hl

/-! ## Claim theorems -/

/-- C3: for every export, a node reachable from the seed set only through a
CALL edge (no INPUT/CREATE/RETURN traversal path) is not included in the
archive — every archived node is reachable from the seeds through non-CALL
traversal alone, since `ReachNC` has no constructor for CALL edges — and a
CALL edge is recorded in the archive only when both caller and callee
already belong to the archived node set by those other means. -/
theorem call_edges_never_traversed
    (S : Store) (sn sg : List Nat) (pol : LicensePolicy) (A : Archive)
    (hexp : export_tree S sn sg pol = Except.ok A) :
    (∀ n ∈ A.nodes, ReachNC S.links (initialSeeds S sn sg) n.uuid) ∧
    (∀ l ∈ A.links, l.kind = LinkType.CALL →
      l.source ∈ nodeUuids A.nodes ∧ l.target ∈ nodeUuids A.nodes) := by
  obtain ⟨hn, hl, -, -, -⟩ := export_tree_ok hexp
  constructor
  · intro n hmem
    rw [hn] at hmem
    exact closureOf_sound S sn sg n.uuid (mem_exportedNodes.mp hmem).2
  · intro l hmem _
    rw [hl] at hmem
    have h := mem_exportedLinks.mp hmem
    rw [hn]
    exact ⟨h.2.1, h.2.2.1⟩

/-- Witness for C3: on the concrete workflow store `storeW`, exporting the
seed `o1 = 4` yields the archive `archW`, and the archived node `w1 = 1`
is reachable from the seeds without traversing a CALL edge. -/
theorem call_edges_never_traversed_witness :
    export_tree storeW [4] [] noPolicy = Except.ok archW ∧
    ReachNC storeW.links (initialSeeds storeW [4] []) 1 :=
  ⟨by decide,
    (call_edges_never_traversed storeW [4] [] noPolicy archW (by decide)).1
      (wNode 1 "work") (by decide)⟩

/-- C9 counterexample: in `storeW`, exporting the seed `o1 = 4` puts both
`w1 = 1` and `o1 = 4` into the archived node set (they are in the closure
via CREATE/INPUT edges), yet the RETURN edge between them is not recorded
in the archive, and after importing the archive into an empty store the
RETURN edge is absent — refuting the claim that a RETURN edge is included
whenever both endpoints belong to the closure. -/
theorem return_link_dropped_cex :
    export_tree storeW [4] [] noPolicy = Except.ok archW ∧
    1 ∈ nodeUuids archW.nodes ∧ 4 ∈ nodeUuids archW.nodes ∧
    Link.mk 1 4 "return" LinkType.RETURN ∈ storeW.links ∧
    ¬ Link.mk 1 4 "return" LinkType.RETURN ∈ archW.links ∧
    import_data archW false (emptyStore "op@x") = Except.ok storeWT ∧
    ¬ Link.mk 1 4 "return" LinkType.RETURN ∈ storeWT.links := by decide

/-- C9 (amended): for every export, RETURN edges are never recorded in the
archive, even when both of their endpoints belong to the closure; every
recorded edge does have both endpoints among the archived nodes (the
both-endpoints condition is necessary but not sufficient for RETURN). -/
theorem return_links_never_recorded
    (S : Store) (sn sg : List Nat) (pol : LicensePolicy) (A : Archive)
    (hexp : export_tree S sn sg pol = Except.ok A) :
    ∀ l ∈ A.links, ¬ l.kind = LinkType.RETURN ∧
      l.source ∈ nodeUuids A.nodes ∧ l.target ∈ nodeUuids A.nodes := by
  obtain ⟨hn, hl, -, -, -⟩ := export_tree_ok hexp
  intro l hmem
  rw [hl] at hmem
  have h := mem_exportedLinks.mp hmem
  rw [hn]
  exact ⟨h.2.2.2, h.2.1, h.2.2.1⟩

/-- Witness for the amended C9: the CREATE link of `archW` is not a RETURN
link and has both endpoints among the archived nodes. -/
theorem return_links_never_recorded_witness :
    Link.mk 1 4 "output" LinkType.CREATE ∈ archW.links ∧
    (¬ (Link.mk 1 4 "output" LinkType.CREATE).kind = LinkType.RETURN ∧
      (1 : Nat) ∈ nodeUuids archW.nodes ∧ (4 : Nat) ∈ nodeUuids archW.nodes) :=
  ⟨by decide,
    return_links_never_recorded storeW [4] [] noPolicy archW (by decide)
      (Link.mk 1 4 "output" LinkType.CREATE) (by decide)⟩

/-- C6: an export called with a license policy fails with a licensing
error — and, `export_tree` returning no `Except.ok` archive, writes no
archive — exactly when some node of the closure violates the policy; and
an allow-list predicate that raises during evaluation (modelled by a
`none` result) counts as a rejection surfaced as the same licensing error,
never as an unrelated crash. -/
theorem license_policy_gate
    (S : Store) (sn sg : List Nat) (pol : LicensePolicy) :
    ((∃ u, export_tree S sn sg pol = Except.error (ExportErr.licensing u)) ↔
      ∃ n ∈ exportedNodes S sn sg, nodeViolates pol n = true) ∧
    (∀ f n l, pol.allowed = some (LicenseSpec.pred f) →
      n ∈ exportedNodes S sn sg → n.license = some l → f l = none →
      ∃ u, export_tree S sn sg pol = Except.error (ExportErr.licensing u)) := by
  have hmain : (∃ u, export_tree S sn sg pol =
      Except.error (ExportErr.licensing u)) ↔
      ∃ n ∈ exportedNodes S sn sg, nodeViolates pol n = true := by
    constructor
    · rintro ⟨u, hu⟩
      unfold export_tree at hu
      cases hf : (exportedNodes S sn sg).find? (fun n => nodeViolates pol n) with
      | some n =>
        exact ⟨n, List.mem_of_find?_eq_some hf, List.find?_some hf⟩
      | none => rw [hf] at hu; exact absurd hu (by simp)
    · rintro ⟨n, hn, hviol⟩
      unfold export_tree
      cases hf : (exportedNodes S sn sg).find? (fun n => nodeViolates pol n) with
      | some n' => exact ⟨n'.uuid, rfl⟩
      | none =>
        have hnone := List.find?_eq_none.mp hf n hn
        simp [hviol] at hnone
  refine ⟨hmain, ?_⟩
  intro f n l hall hmem hlic hraise
  refine hmain.mpr ⟨n, hmem, ?_⟩
  unfold nodeViolates
  rw [hall, hlic]
  simp [specAccepts, hraise]

/-- Witness for C6: exporting `storeL` (its node carries license "GPL")
under `allowed_licenses = ["CC0"]` raises a licensing error, and so does
exporting it under an allow-list predicate that raises on every input. -/
theorem license_policy_gate_witness :
    (∃ u, export_tree storeL [10] [] polCC0 =
      Except.error (ExportErr.licensing u)) ∧
    (∃ u, export_tree storeL [10] [] polCrash =
      Except.error (ExportErr.licensing u)) :=
  ⟨(license_policy_gate storeL [10] [] polCC0).1.mpr
      ⟨nodeGPL, by decide, by decide⟩,
    (license_policy_gate storeL [10] [] polCrash).2 (fun _ => none) nodeGPL
      "GPL" rfl (by decide) rfl rfl⟩

/-- C2: importing an archive a second time — or importing any archive
whose entities carry the same unique identifiers (node UUID, computer
UUID, user email, group UUID) as an already-imported one — creates no
duplicate entities: the node, computer, user and group lists (hence the
entity counts per kind) after the second import equal those after the
first, already-present entities being linked to rather than recreated. -/
theorem reimport_no_duplicates
    (A B : Archive) (S T1 T2 : Store) (ig ig2 : Bool)
    (hA : import_data A ig S = Except.ok T1)
    (hu : ∀ u ∈ B.users, ∃ v ∈ A.users, v.email = u.email)
    (hc : ∀ c ∈ B.computers, ∃ d ∈ A.computers, d.uuid = c.uuid)
    (hn : ∀ n ∈ B.nodes, ∃ m ∈ A.nodes, m.uuid = n.uuid)
    (hg : ∀ g ∈ B.groups, ∃ h ∈ A.groups, h.uuid = g.uuid)
    (hB : import_data B ig2 T1 = Except.ok T2) :
    T2.nodes = T1.nodes ∧ T2.computers = T1.computers ∧
    T2.users = T1.users ∧ T2.groups = T1.groups := by
  obtain ⟨hA1, hA2, hA3, hA4, -, -⟩ := import_data_ok hA
  obtain ⟨hB1, hB2, hB3, hB4, -, -⟩ := import_data_ok hB
  refine ⟨?_, ?_, ?_, ?_⟩
  · rw [hB1]
    refine addNodes_id _ _ _ ?_
    intro n hnB
    obtain ⟨m, hmA, hme⟩ := hn n hnB
    obtain ⟨m', hm', hme'⟩ := addNodes_mem S.defaultUser A.nodes S.nodes m hmA
    exact ⟨m', by rw [hA1]; exact hm', by rw [hme', hme]⟩
  · rw [hB2]
    refine addComputers_id _ _ ?_
    intro c hcB
    obtain ⟨d, hdA, hde⟩ := hc c hcB
    obtain ⟨d', hd', hde'⟩ := addComputers_mem A.computers S.computers d hdA
    exact ⟨d', by rw [hA2]; exact hd', by rw [hde', hde]⟩
  · rw [hB3]
    refine addUsers_id _ _ ?_
    intro u huB
    obtain ⟨v, hvA, hve⟩ := hu u huB
    obtain ⟨v', hv', hve'⟩ := addUsers_mem A.users S.users v hvA
    exact ⟨v', by rw [hA3]; exact hv', by rw [hve', hve]⟩
  · rw [hB4]
    refine addGroups_id _ _ ?_
    intro g hgB
    obtain ⟨h, hhA, hhe⟩ := hg g hgB
    obtain ⟨h', hh', hhe'⟩ := addGroups_mem A.groups S.groups h hhA
    exact ⟨h', by rw [hA4]; exact hh', by rw [hhe', hhe]⟩

/-- Witness for C2: importing `arch2` into an empty store yields
`store2T`; importing it a second time succeeds and leaves every entity
list unchanged. -/
theorem reimport_no_duplicates_witness :
    import_data arch2 false (emptyStore "op@x") = Except.ok store2T ∧
    import_data arch2 false store2T = Except.ok store2T ∧
    (store2T.nodes = store2T.nodes ∧ store2T.computers = store2T.computers ∧
      store2T.users = store2T.users ∧ store2T.groups = store2T.groups) :=
  ⟨by decide, by decide,
    reimport_no_duplicates arch2 arch2 (emptyStore "op@x") store2T store2T
      false false (by decide) (by decide) (by decide) (by decide) (by decide)
      (by decide)⟩

/-- C5: importing an archive containing a compute endpoint whose UUID
already exists in the target store leaves every existing endpoint record
entirely unchanged and in place (the store's endpoint list is extended at
most by a suffix, so name, UUID, metadata and position — the database id —
of the existing endpoint are untouched), and no endpoint with that UUID is
recreated, regardless of the archive's copy. -/
theorem uuid_match_preserves_existing
    (A : Archive) (S T : Store) (ig : Bool) (c e : Computer)
    (hcA : c ∈ A.computers) (heS : e ∈ S.computers) (huuid : c.uuid = e.uuid)
    (hok : import_data A ig S = Except.ok T) :
    (∃ ext, T.computers = S.computers ++ ext ∧ ∀ d ∈ ext, d.uuid ≠ e.uuid) ∧
    ∃ d ∈ T.computers, d.uuid = e.uuid := by
  obtain ⟨-, hT2, -, -, -, -⟩ := import_data_ok hok
  obtain ⟨ext, hext, hfr⟩ := addComputers_frame A.computers S.computers
  refine ⟨⟨ext, by rw [hT2, hext], fun d hd => hfr d hd e heS⟩, ?_⟩
  obtain ⟨d, hd, hde⟩ := addComputers_mem A.computers S.computers c hcA
  exact ⟨d, by rw [hT2]; exact hd, by rw [hde, huuid]⟩

/-- Witness for C5: importing `arch5`, whose UUID-5 endpoint carries a
different name, hostname and metadata, into `store5` leaves the store
unchanged, and the existing endpoint list is preserved as a prefix. -/
theorem uuid_match_preserves_existing_witness :
    import_data arch5 false store5 = Except.ok store5 ∧
    ((∃ ext, store5.computers = store5.computers ++ ext ∧
        ∀ d ∈ ext, d.uuid ≠ comp5.uuid) ∧
      ∃ d ∈ store5.computers, d.uuid = comp5.uuid) :=
  ⟨by decide,
    uuid_match_preserves_existing arch5 store5 store5 false comp5arch comp5
      (by decide) (by decide) (by decide) (by decide)⟩

/-- C4: importing an archive whose compute endpoint collides by name with
an existing store endpoint of a different UUID keeps every existing
endpoint unchanged and creates the imported endpoint as a distinct new
entity renamed with a numeric-duplicate suffix, where the chosen index `k`
is the least one whose candidate name is free — successive integers
starting at 0 are tried, so the renaming is deterministic in the final
database state. -/
theorem name_collision_renames
    (A : Archive) (S T : Store) (ig : Bool) (c : Computer)
    (hAc : A.computers = [c])
    (hfreshUuid : ¬ ∃ d ∈ S.computers, d.uuid = c.uuid)
    (hcollide : ∃ d ∈ S.computers, d.name = c.name)
    (hfree : ∃ k ∈ List.range (S.computers.length + 1),
      ¬ (c.name ++ COMP_DUPL_SUFFIX k) ∈ S.computers.map Computer.name)
    (hok : import_data A ig S = Except.ok T) :
    ∃ k, T.computers = S.computers ++
        [{ c with name := c.name ++ COMP_DUPL_SUFFIX k }] ∧
      ¬ (c.name ++ COMP_DUPL_SUFFIX k) ∈ S.computers.map Computer.name ∧
      ∀ j, j < k → (c.name ++ COMP_DUPL_SUFFIX j) ∈
        S.computers.map Computer.name := by
  obtain ⟨-, hT2, -, -, -, -⟩ := import_data_ok hok
  rw [hAc] at hT2
  have hstep : addComputers S.computers [c] = S.computers ++
      [{ c with name := findFreeName (S.computers.map Computer.name) c.name (S.computers.length + 1) 0 }] := by
    rw [addComputers_cons, if_neg hfreshUuid, if_pos hcollide]
    rfl
  have hex : ∃ j, j < S.computers.length + 1 ∧
      ¬ (c.name ++ COMP_DUPL_SUFFIX (0 + j)) ∈ S.computers.map Computer.name := by
    obtain ⟨k, hk1, hk2⟩ := hfree
    exact ⟨k, List.mem_range.mp hk1, by simpa using hk2⟩
  obtain ⟨k, hk1, hk2, hk3⟩ :=
    findFreeName_spec (S.computers.map Computer.name) c.name
      (S.computers.length + 1) 0 hex
  rw [Nat.zero_add] at hk1 hk2
  refine ⟨k, ?_, hk2, ?_⟩
  · rw [hT2, hstep, hk1]
  · intro j hj
    have h := hk3 j hj
    rwa [Nat.zero_add] at h

/-- Witness for C4: the first colliding import of an endpoint named
"localhost_1" (fresh UUID 2) into `store4` yields "localhost_1_0", and the
second colliding import (fresh UUID 3) into the resulting store yields
"localhost_1_1"; the computed names are checked explicitly. -/
theorem name_collision_renames_witness :
    (import_data arch4b false store4 = Except.ok store4b ∧
      import_data arch4c false store4b = Except.ok store4c ∧
      store4b.computers.map Computer.name = ["localhost_1", "localhost_1_0"] ∧
      store4c.computers.map Computer.name =
        ["localhost_1", "localhost_1_0", "localhost_1_1"]) ∧
    (∃ k, store4b.computers = store4.computers ++
        [{ comp4b with name := comp4b.name ++ COMP_DUPL_SUFFIX k }] ∧
      ¬ (comp4b.name ++ COMP_DUPL_SUFFIX k) ∈ store4.computers.map Computer.name ∧
      ∀ j, j < k → (comp4b.name ++ COMP_DUPL_SUFFIX j) ∈
        store4.computers.map Computer.name) ∧
    (∃ k, store4c.computers = store4b.computers ++
        [{ comp4c with name := comp4c.name ++ COMP_DUPL_SUFFIX k }] ∧
      ¬ (comp4c.name ++ COMP_DUPL_SUFFIX k) ∈ store4b.computers.map Computer.name ∧
      ∀ j, j < k → (comp4c.name ++ COMP_DUPL_SUFFIX j) ∈
        store4b.computers.map Computer.name) :=
  ⟨by decide,
    name_collision_renames arch4b store4 store4b false comp4b rfl (by decide)
      (by decide) (by decide) (by decide),
    name_collision_renames arch4c store4b store4c false comp4c rfl (by decide)
      (by decide) (by decide) (by decide)⟩

/-- C7: importing an archive whose edge list references a node UUID absent
from both the archive's node list and the target store fails with a
referential-integrity error when `ignore_unknown_nodes` is false (the
default); with the flag set, the import succeeds, the dangling edge is
dropped, and every archived node absent from the store — together with its
label — is imported intact. -/
theorem unknown_node_edge_handling
    (A : Archive) (S : Store) (l : Link)
    (hlA : l ∈ A.links)
    (huA : ¬ l.source ∈ nodeUuids A.nodes)
    (huS : ¬ l.source ∈ nodeUuids S.nodes)
    (hlS : ¬ l ∈ S.links)
    (hAnd : (nodeUuids A.nodes).Nodup) :
    (∃ u, import_data A false S = Except.error (ImportErr.unknownNode u)) ∧
    (∃ T, import_data A true S = Except.ok T ∧ ¬ l ∈ T.links ∧
      ∀ n ∈ A.nodes, ¬ n.uuid ∈ nodeUuids S.nodes →
        ∃ m ∈ T.nodes, m.uuid = n.uuid ∧ m.label = n.label) := by
  have hsrc : ¬ l.source ∈ nodeUuids (addNodes S.defaultUser S.nodes A.nodes) := by
    intro hcon
    rcases addNodes_uuids hcon with h | h
    · exact huS h
    · exact huA h
  constructor
  · obtain ⟨u, hu⟩ :=
      @addLinks_err (nodeUuids (addNodes S.defaultUser S.nodes A.nodes))
        A.links S.links ⟨l, hlA, fun hc => hsrc hc.1⟩
    exact ⟨u, import_data_error hu⟩
  · obtain ⟨T, hT, hTn, hTl⟩ := import_data_true A S
    refine ⟨T, hT, ?_, ?_⟩
    · intro hcon
      rcases hTl l hcon with h | h
      · exact hlS h
      · rw [hTn] at h
        exact hsrc h.2.1
    · intro n hn hfresh
      refine ⟨resolveNode S.defaultUser n, ?_, rfl, rfl⟩
      rw [hTn]
      refine addNodes_mem_fresh S.defaultUser A.nodes S.nodes hAnd n hn ?_
      intro hcon
      obtain ⟨m, hm, he⟩ := hcon
      exact hfresh (by rw [← he]; exact List.mem_map_of_mem Node.uuid hm)

/-- Witness for C7: importing `arch7` (whose edge refers to the unknown
UUID 99) into an empty store fails by default and succeeds with
`ignore_unknown_nodes = true`, dropping the dangling edge while importing
the archived node and its label intact. -/
theorem unknown_node_edge_handling_witness :
    (∃ u, import_data arch7 false (emptyStore "op@x") =
      Except.error (ImportErr.unknownNode u)) ∧
    (∃ T, import_data arch7 true (emptyStore "op@x") = Except.ok T ∧
      ¬ Link.mk 99 1 "parent" LinkType.INPUT ∈ T.links ∧
      ∀ n ∈ arch7.nodes, ¬ n.uuid ∈ nodeUuids (emptyStore "op@x").nodes →
        ∃ m ∈ T.nodes, m.uuid = n.uuid ∧ m.label = n.label) :=
  unknown_node_edge_handling arch7 (emptyStore "op@x")
    (Link.mk 99 1 "parent" LinkType.INPUT) (by decide) (by decide)
    (by decide) (by decide) (by decide)

/-- C8: after import, a node created from an archive record carrying an
explicit user email is attributed to a user with that same email (present
in the store because archived users are matched by email or created), and
a node the archive associates with no explicit user is attributed to the
importing store's configured default user — both cases captured by
`Option.getD` over the archived association. -/
theorem user_attribution
    (A : Archive) (S T : Store) (ig : Bool) (n : Node)
    (hn : n ∈ A.nodes)
    (hfresh : ¬ n.uuid ∈ nodeUuids S.nodes)
    (hAnd : (nodeUuids A.nodes).Nodup)
    (hok : import_data A ig S = Except.ok T) :
    ∃ m ∈ T.nodes, m.uuid = n.uuid ∧
      m.userEmail = some (n.userEmail.getD S.defaultUser) ∧
      ∀ e, n.userEmail = some e → (∃ u ∈ A.users, u.email = e) →
        ∃ u ∈ T.users, u.email = e := by
  obtain ⟨hT1, -, hT3, -, -, -⟩ := import_data_ok hok
  refine ⟨resolveNode S.defaultUser n, ?_, rfl, rfl, ?_⟩
  · rw [hT1]
    refine addNodes_mem_fresh S.defaultUser A.nodes S.nodes hAnd n hn ?_
    intro hcon
    obtain ⟨m, hm, he⟩ := hcon
    exact hfresh (by rw [← he]; exact List.mem_map_of_mem Node.uuid hm)
  · intro e he hex
    obtain ⟨u, hu, hue⟩ := hex
    obtain ⟨v, hv, hve⟩ := addUsers_mem A.users S.users u hu
    exact ⟨v, by rw [hT3]; exact hv, by rw [hve, hue]⟩

/-- Witness for C8: importing `arch8` into an empty store with default
user `op@x` attributes the explicitly-owned node to `newuser@new.n` and
the node with no user association to `op@x`. -/
theorem user_attribution_witness :
    import_data arch8 false (emptyStore "op@x") = Except.ok store8T ∧
    (∃ m ∈ store8T.nodes, m.uuid = 1 ∧
      m.userEmail = some "newuser@new.n" ∧
      ∀ e, (some "newuser@new.n" : Option String) = some e →
        (∃ u ∈ arch8.users, u.email = e) → ∃ u ∈ store8T.users, u.email = e) ∧
    (∃ m ∈ store8T.nodes, m.uuid = 2 ∧ m.userEmail = some "op@x") :=
  ⟨by decide,
    user_attribution arch8 (emptyStore "op@x") store8T false
      { wNode 1 "structure" with label := "sd1", userEmail := some "newuser@new.n" }
      (by decide) (by decide) (by decide) (by decide),
    by
      obtain ⟨m, hm, h1, h2, -⟩ :=
        user_attribution arch8 (emptyStore "op@x") store8T false
          { wNode 2 "structure" with label := "sd3" }
          (by decide) (by decide) (by decide) (by decide)
      exact ⟨m, hm, h1, h2⟩⟩

/-- C1: exporting a subgraph (the computed closure of the seed set) and
importing the archive into an empty store succeeds, and the resulting
store's node set carries exactly the UUIDs of the exported closure — with
distinct UUIDs on both sides this is a bijection by UUID — while every
imported node keeps its original attributes, label and description, and
every imported link is an original store link (hence keeps its label and
kind); every archived link is recreated. -/
theorem roundtrip_bijection
    (S : Store) (sn sg : List Nat) (pol : LicensePolicy) (A : Archive)
    (d : String)
    (hnd : (nodeUuids S.nodes).Nodup)
    (hld : S.links.Nodup)
    (hexp : export_tree S sn sg pol = Except.ok A) :
    ∃ T, import_data A false (emptyStore d) = Except.ok T ∧
      nodeUuids T.nodes = nodeUuids (exportedNodes S sn sg) ∧
      (nodeUuids T.nodes).Nodup ∧
      (∀ n ∈ T.nodes, ∃ m ∈ S.nodes, m.uuid = n.uuid ∧
        m.attributes = n.attributes ∧ m.label = n.label ∧
        m.description = n.description) ∧
      (∀ l ∈ T.links, l ∈ S.links) ∧
      (∀ l ∈ A.links, l ∈ T.links) := by
  obtain ⟨hn, hl, -, -, -⟩ := export_tree_ok hexp
  obtain ⟨hAnd, hAld, hends⟩ := export_archive_wf hnd hld hexp
  have himp := import_into_empty A d hAnd hAld hends
  refine ⟨_, himp, ?_, ?_, ?_, ?_, ?_⟩
  · show nodeUuids (A.nodes.map (resolveNode d)) = _
    rw [nodeUuids_resolve, hn]
  · show (nodeUuids (A.nodes.map (resolveNode d))).Nodup
    rw [nodeUuids_resolve]
    exact hAnd
  · intro n hnmem
    obtain ⟨m, hm, he⟩ := List.mem_map.mp hnmem
    have hmS : m ∈ S.nodes := by
      rw [hn] at hm
      exact (mem_exportedNodes.mp hm).1
    refine ⟨m, hmS, ?_⟩
    rw [← he]
    exact ⟨rfl, rfl, rfl, rfl⟩
  · intro l hlmem
    have hlA : l ∈ exportedLinks S sn sg := by rw [← hl]; exact hlmem
    exact (mem_exportedLinks.mp hlA).1
  · intro l h
    exact h

/-- Witness for C1: the round trip on the concrete two-node store
`store1`, exporting seed 4 into `arch1` and importing into an empty
store. -/
theorem roundtrip_bijection_witness :
    ∃ T, import_data arch1 false (emptyStore "op@x") = Except.ok T ∧
      nodeUuids T.nodes = nodeUuids (exportedNodes store1 [4] []) ∧
      (nodeUuids T.nodes).Nodup ∧
      (∀ n ∈ T.nodes, ∃ m ∈ store1.nodes, m.uuid = n.uuid ∧
        m.attributes = n.attributes ∧ m.label = n.label ∧
        m.description = n.description) ∧
      (∀ l ∈ T.links, l ∈ store1.links) ∧
      (∀ l ∈ arch1.links, l ∈ T.links) :=
  roundtrip_bijection store1 [4] [] noPolicy arch1 "op@x" (by decide)
    (by decide) (by decide)

/-- C10: a compute endpoint carrying JSON-valued metadata and
transport-parameter mappings that is referenced by an exported node is
serialized into the archive and, after import into an empty store,
reappears as an endpoint with the same UUID whose `metadata` and
`transport_params` mappings equal the originals exactly, key for key and
value for value. -/
theorem computer_json_roundtrip
    (S : Store) (sn sg : List Nat) (pol : LicensePolicy) (A : Archive)
    (d : String) (c : Computer) (n : Node)
    (hnd : (nodeUuids S.nodes).Nodup)
    (hld : S.links.Nodup)
    (hcnd : (S.computers.map Computer.uuid).Nodup)
    (hcS : c ∈ S.computers)
    (hnN : n ∈ exportedNodes S sn sg)
    (href : n.computerUuid = some c.uuid)
    (hexp : export_tree S sn sg pol = Except.ok A) :
    ∃ T, import_data A false (emptyStore d) = Except.ok T ∧
      ∃ c' ∈ T.computers, c'.uuid = c.uuid ∧ c'.metadata = c.metadata ∧
        c'.transport_params = c.transport_params := by
  obtain ⟨-, -, hcm, -, -⟩ := export_tree_ok hexp
  obtain ⟨hAnd, hAld, hends⟩ := export_archive_wf hnd hld hexp
  have himp := import_into_empty A d hAnd hAld hends
  refine ⟨_, himp, ?_⟩
  have hcA : c ∈ A.computers := by
    rw [hcm]
    refine List.mem_filter.mpr ⟨hcS, ?_⟩
    refine List.any_eq_true.mpr ⟨n, hnN, ?_⟩
    simpa using href
  have hAcnd : (A.computers.map Computer.uuid).Nodup := by
    rw [hcm]
    exact hcnd.sublist (List.Sublist.map _ (List.filter_sublist _))
  obtain ⟨nm, hmem⟩ := addComputers_fresh_mem A.computers [] hAcnd c hcA
    (fun hcon => by
      obtain ⟨d', hd', -⟩ := hcon
      exact absurd hd' (List.not_mem_nil d'))
  exact ⟨{ c with name := nm }, hmem, rfl, rfl, rfl⟩

/-- Witness for C10: the endpoint `comp10` (metadata
`workdir = /tmp/aiida`, transport parameters `key1 = value1`, `key2 = 2`)
survives the export/import cycle of `store10` with both mappings intact. -/
theorem computer_json_roundtrip_witness :
    ∃ T, import_data arch10 false (emptyStore "op@x") = Except.ok T ∧
      ∃ c' ∈ T.computers, c'.uuid = comp10.uuid ∧
        c'.metadata = comp10.metadata ∧
        c'.transport_params = comp10.transport_params :=
  computer_json_roundtrip store10 [1] [] noPolicy arch10 "op@x" comp10
    node10 (by decide) (by decide) (by decide) (by decide) (by decide)
    (by decide) (by decide)

end AiidaEI
